import Mathlib

/-!
Verification of the remote-URL extraction core of
src/vs/workbench/parts/stats/node/workspaceStats.ts.

Strings are modelled as List Char.  Each regular expression of the source is
translated into an executable Lean function that reproduces the JavaScript
regex engine's deterministic leftmost-match backtracking behaviour for that
particular pattern.  The collaborators that are not part of the source file
(the URI parser of vs/base/common/uri, the file service, node's crypto) are
modelled from the specification; their definitions carry a comment saying so.
-/

/-- JavaScript regex whitespace class (the set matched by a backslash-s atom):
TAB, LF, VT, FF, CR, SP, NBSP, OGHAM SP, U+2000..U+200A, LS, PS, NNBSP,
MMSP, IDEOGRAPHIC SP, BOM. -/
def isJsWhitespace (c : Char) : Bool :=
  c.toNat == 32 || c.toNat == 9 || c.toNat == 10 || c.toNat == 13 ||
  c.toNat == 11 || c.toNat == 12 || c.toNat == 160 || c.toNat == 5760 ||
  (8192 ≤ c.toNat && c.toNat ≤ 8202) || c.toNat == 8232 || c.toNat == 8233 ||
  c.toNat == 8239 || c.toNat == 8287 || c.toNat == 12288 || c.toNat == 65279

/-- JavaScript line terminators: LF, CR, LINE SEPARATOR, PARAGRAPH SEPARATOR.
These are the positions recognised by multiline anchors, and the characters
excluded by the dot atom. -/
def isLineTerm (c : Char) : Bool :=
  c.toNat == 10 || c.toNat == 13 || c.toNat == 8232 || c.toNat == 8233

/-- ASCII digit, the JS backslash-d class. -/
def isAsciiDigit (c : Char) : Bool := '0' ≤ c && c ≤ '9'

/-- Split a character list at its LAST line terminator:
returns (prefix, terminator, suffix) with l = prefix ++ terminator :: suffix. -/
def lastTermSplit (l : List Char) : Option (List Char × Char × List Char) :=
  match l.reverse.dropWhile (fun c => !(isLineTerm c)) with
  | c :: rpre => some (rpre.reverse, c, (l.reverse.takeWhile (fun c => !(isLineTerm c))).reverse)
  | [] => none

/-- The part of RemoteMatcher after the '=' sign: backslash-s* (.+ backslash-S)
backslash-s* dollar, with multiline dollar.  Input is the text following '='.
Returns (captured value, whether the char preceding the rest is a line
terminator, rest of the text after the full match).  Mirrors the greedy
backtracking of the JS engine: the value starts at the first non-space after
'=' (one preceding non-terminator space is given back when the value would
otherwise be a single character, since .+ and the final non-space atom need
two characters), ends at the last non-space of that line, and the full match
then extends to the last line terminator inside the following whitespace run
(or to the end of the text). -/
def matchAfterEq (t : List Char) : Option (List Char × Bool × List Char) :=
  let sp := t.takeWhile isJsWhitespace
  let t1 := t.dropWhile isJsWhitespace
  match t1 with
  | [] => none
  | _ :: _ =>
    let line := t1.takeWhile (fun c => !(isLineTerm c))
    let afterLine := t1.dropWhile (fun c => !(isLineTerm c))
    let value := (line.reverse.dropWhile isJsWhitespace).reverse
    let trail := (line.reverse.takeWhile isJsWhitespace).reverse
    let capQ : Option (List Char) :=
      if 2 ≤ value.length then some value
      else match sp.getLast? with
        | some c => if isLineTerm c then none else some (c :: value)
        | none => none
    match capQ with
    | none => none
    | some cap =>
      let u := trail ++ afterLine
      let sps := u.takeWhile isJsWhitespace
      let rest2 := u.dropWhile isJsWhitespace
      if rest2.isEmpty then some (cap, false, [])
      else
        match lastTermSplit sps with
        | none => none
        | some (pre, c, suf) =>
          let prevIsTerm := match pre.getLast? with
            | some d => isLineTerm d
            | none => false
          some (cap, prevIsTerm, c :: (suf ++ rest2))

/-- One attempted match of RemoteMatcher
(caret backslash-s* url backslash-s* = followed by matchAfterEq)
at a position where the multiline caret holds. -/
def matchFull (s : List Char) : Option (List Char × Bool × List Char) :=
  match s.dropWhile isJsWhitespace with
  | 'u' :: 'r' :: 'l' :: r2 =>
    match r2.dropWhile isJsWhitespace with
    | '=' :: t => matchAfterEq t
    | _ => none
  | _ => none

/-- Repeated global exec of RemoteMatcher: walk the text position by position;
at line starts (tracked by the Bool flag) attempt a match, emit its capture
and continue after the full match.  The fuel argument only serves structural
termination; it is initialised with the text length, which suffices because
every step consumes at least one character. -/
def scanAux : Nat → Bool → List Char → List (List Char)
  | 0, _, _ => []
  | _ + 1, _, [] => []
  | fuel + 1, atStart, c :: rest =>
    if atStart then
      match matchFull (c :: rest) with
      | some (cap, nextStart, after) => cap :: scanAux fuel nextStart after
      | none => scanAux fuel (isLineTerm c) rest
    else scanAux fuel (isLineTerm c) rest

/-- All values captured by RemoteMatcher over the whole text, in order of
appearance (a fresh scan starting at position 0). -/
def scanRemoteValues (text : List Char) : List (List Char) :=
  scanAux text.length true text

/-- One call of the while-exec loop against the shared RemoteMatcher object,
starting from the regex object's current lastIndex.  The loop only ends when
exec returns null, and a failed exec resets lastIndex to 0, so the final
state is always 0. -/
def scanFromState (text : List Char) (lastIndex : Nat) : List (List Char) × Nat :=
  if lastIndex ≤ text.length then
    let atStart := lastIndex == 0 ||
      (match text.get? (lastIndex - 1) with
       | some c => isLineTerm c
       | none => false)
    (scanAux (text.length - lastIndex) atStart (text.drop lastIndex), 0)
  else ([], 0)

/-- Does the text contain the substring "://" (url.indexOf of the source). -/
def hasSchemeSep : List Char → Bool
  | ':' :: '/' :: '/' :: _ => true
  | _ :: rest => hasSchemeSep rest
  | [] => false

/-- Shared capture-group-2 logic of SshProtocolMatcher and SshUrlMatcher on
the colon-free prefix p: an optional leading user@ part (nonempty, up to the
FIRST at-sign) is dropped, but only when something nonempty remains;
otherwise group 2 is the whole prefix. -/
def hostFromPrefix (p : List Char) : List Char :=
  match p.takeWhile (fun c => !(c == '@')), p.dropWhile (fun c => !(c == '@')) with
  | _ :: _, _ :: qh :: qt => qh :: qt
  | _, _ => p

/-- SshProtocolMatcher caret ([^@:]+@)? ([^:]+) : — group 2.
The pattern's colon is necessarily the first colon of the string; the prefix
before it must be nonempty. -/
def sshProtoHost (s : List Char) : Option (List Char) :=
  match s.takeWhile (fun c => !(c == ':')), s.dropWhile (fun c => !(c == ':')) with
  | p :: ps, ':' :: _ => some (hostFromPrefix (p :: ps))
  | _, _ => none

/-- SshUrlMatcher caret ([^@:]+@)? ([^:]+) : (.+) dollar — groups 2 and 3.
Group 3 is everything after the first colon; it must be nonempty and free of
line terminators (the dot atom excludes them and there is no m flag). -/
def sshUrlHostPath (s : List Char) : Option (List Char × List Char) :=
  match s.takeWhile (fun c => !(c == ':')), s.dropWhile (fun c => !(c == ':')) with
  | p :: ps, ':' :: rest =>
    if rest.isEmpty || rest.any isLineTerm then none
    else some (hostFromPrefix (p :: ps), rest)
  | _, _ => none

/-- The ([^:]+)(: digits+)? dollar tail of AuthorityMatcher applied to t. -/
def authTail (t : List Char) : Option (List Char) :=
  match t.takeWhile (fun c => !(c == ':')), t.dropWhile (fun c => !(c == ':')) with
  | [], _ => none
  | h :: hs, [] => some (h :: hs)
  | h :: hs, ':' :: ds =>
    if !ds.isEmpty && ds.all isAsciiDigit then some (h :: hs) else none
  | _, _ => none

/-- stripPort of the source: AuthorityMatcher caret ([^@]+@)? ([^:]+)
(: digits+)? dollar, group 2.  The user-info part (up to the FIRST at-sign,
nonempty) is tried first; if the remainder does not fit, the engine
backtracks to the whole string without user-info stripping. -/
def stripPort (s : List Char) : Option (List Char) :=
  match s.takeWhile (fun c => !(c == '@')), s.dropWhile (fun c => !(c == '@')) with
  | _ :: _, _ :: r1 =>
    (match authTail r1 with
     | some h => some h
     | none => authTail s)
  | _, _ => authTail s

/-- Characters allowed in the two labels of SecondLevelDomainMatcher. -/
def sldOk (c : Char) : Bool := !(c == '@' || c == ':' || c == '.')

/-- One attempted match of SecondLevelDomainMatcher
([^@:.]+ . [^@:.]+)(: digits+)? dollar at a fixed start position: two
nonempty labels joined by a dot, then either the end of the string or a
colon-and-digits port reaching the end.  Group 1 (without the port). -/
def sldMatchAt (s : List Char) : Option (List Char) :=
  match s.takeWhile sldOk, s.dropWhile sldOk with
  | a :: as, '.' :: r2 =>
    (match r2.takeWhile sldOk, r2.dropWhile sldOk with
     | b :: bs, [] => some ((a :: as) ++ '.' :: b :: bs)
     | b :: bs, ':' :: ds =>
       if !ds.isEmpty && ds.all isAsciiDigit then some ((a :: as) ++ '.' :: b :: bs) else none
     | _, _ => none)
  | _, _ => none

/-- stripLowLevelDomains of the source: the leftmost match of
SecondLevelDomainMatcher (the match is anchored at the end by its dollar, so
this keeps the last two dot-separated labels of a host). -/
def stripLowLevelDomains : List Char → Option (List Char)
  | [] => none
  | c :: rest =>
    match sldMatchAt (c :: rest) with
    | some m => some m
    | none => stripLowLevelDomains rest

/-- Modelled from the spec: the generic URI parser (vs/base/common/uri) is a
collaborator whose code is not under src/.  Per the spec (section 4.2) it
parses standard URI syntax and succeeds only when an authority component is
present: scheme : // authority path, where the authority runs to the next
slash, question mark or hash, and the path to the next question mark or
hash.  Returns (authority, path). -/
def uriParse (s : List Char) : Option (List Char × List Char) :=
  match s.takeWhile (fun c => !(c == ':' || c == '/' || c == '?' || c == '#')),
        s.dropWhile (fun c => !(c == ':' || c == '/' || c == '?' || c == '#')) with
  | _ :: _, ':' :: '/' :: '/' :: rest =>
    (match rest.takeWhile (fun c => !(c == '/' || c == '?' || c == '#')) with
     | [] => none
     | a :: as =>
       some (a :: as,
         (rest.dropWhile (fun c => !(c == '/' || c == '?' || c == '#'))).takeWhile
           (fun c => !(c == '?' || c == '#'))))
  | _, _ => none

/-- extractDomain of the source: SSH shorthand when no "://" occurs
(returning null when SshProtocolMatcher fails), otherwise the URI authority;
in both cases reduced by stripLowLevelDomains. -/
def extractDomain (url : List Char) : Option (List Char) :=
  if hasSchemeSep url then
    match uriParse url with
    | some (auth, _) => stripLowLevelDomains auth
    | none => none
  else
    match sshProtoHost url with
    | some h => stripLowLevelDomains h
    | none => none

/-- Modelled from the spec: endsWith of vs/base/common/strings (not under
src/) — spec section 4.4: the path ends with the literal 4-character
suffix ".git", checked case-sensitively — followed by removal of exactly
those four trailing characters when requested. -/
def stripDotGit (b : Bool) (path : List Char) : List Char :=
  if b && List.isSuffixOf ['.', 'g', 'i', 't'] path then path.take (path.length - 4)
  else path

/-- normalizeRemote of the source.  The host and path emptiness check happens
BEFORE the .git suffix is stripped; the separator slash is inserted unless
the (possibly stripped) path already starts with one. -/
def normalizeRemote (host path : List Char) (b : Bool) : Option (List Char) :=
  if host.isEmpty || path.isEmpty then none
  else if (stripDotGit b path).head? == some '/' then some (host ++ stripDotGit b path)
  else some (host ++ '/' :: stripDotGit b path)

/-- The URI branch of extractRemote: parse, require an authority, then
normalize with the port-stripped authority (null becoming the falsy empty
host) and the URI path. -/
def extractRemoteUri (url : List Char) (b : Bool) : Option (List Char) :=
  match uriParse url with
  | some (auth, path) => normalizeRemote ((stripPort auth).getD []) path b
  | none => none

/-- extractRemote of the source: when the value has no "://" try the SSH
shorthand first; when that fails (or "://" occurs) fall through to the URI
branch. -/
def extractRemote (url : List Char) (b : Bool) : Option (List Char) :=
  if hasSchemeSep url then extractRemoteUri url b
  else
    match sshUrlHostPath url with
    | some (h, p) => normalizeRemote h p b
    | none => extractRemoteUri url b

/-- Insertion into the JS Set model: a list without duplicates, keeping first
insertion order (Set.add followed by forEach push). -/
def insertSet (l : List (List Char)) (a : List Char) : List (List Char) :=
  if a ∈ l then l else l ++ [a]

/-- The domains collected by the while loop of getDomainsOfRemotes: for each
captured value a truthy extractDomain result is required (the if (domain)
guard skips null and the falsy empty string). -/
def domainValues (vals : List (List Char)) : List (List Char) :=
  vals.filterMap (fun v =>
    match extractDomain v with
    | some d => if d.isEmpty then none else some d
    | none => none)

/-- The deduplicated domain set, in insertion order. -/
def remoteValueDomains (vals : List (List Char)) : List (List Char) :=
  (domainValues vals).foldl insertSet []

/-- The AnyButDot replacement: every character except '.' becomes 'a'. -/
def redactChar (c : Char) : Char := if c == '.' then c else 'a'

/-- Whitelist redaction of a single domain. -/
def redactDomain (d : List Char) : List Char := d.map redactChar

/-- getDomainsOfRemotes of the source. -/
def getDomainsOfRemotes (text : List Char) (whitelist : List (List Char)) : List (List Char) :=
  (remoteValueDomains (scanRemoteValues text)).map
    (fun k => if k ∈ whitelist then k else redactDomain k)

/-- The remotes collected by the while loop of getRemotes: one entry per
captured value whose extractRemote result is truthy. -/
def remotesOfValues (vals : List (List Char)) (b : Bool) : List (List Char) :=
  vals.filterMap (fun v =>
    match extractRemote v b with
    | some r => if r.isEmpty then none else some r
    | none => none)

/-- getRemotes of the source. -/
def getRemotes (text : List Char) (b : Bool) : List (List Char) :=
  remotesOfValues (scanRemoteValues text) b

/-- Truncation to 32 bits. -/
def w32 (n : Nat) : Nat := n % 4294967296

/-- 32-bit left rotation by k (for n already below 2 to the 32). -/
def rotl (k n : Nat) : Nat := n % 2 ^ (32 - k) * 2 ^ k + n / 2 ^ (32 - k)

/-- 32-bit bitwise complement (for n already below 2 to the 32). -/
def n32 (n : Nat) : Nat := 4294967295 - n

/-- SHA-1 working state. -/
structure Sha1St where
  a : Nat
  b : Nat
  c : Nat
  d : Nat
  e : Nat

/-- Modelled from the spec: node's crypto sha1 (section 4.5: a fixed one-way
cryptographic hash with hex-encoded digest), implemented as standard SHA-1.
Round function. -/
def sha1F (t b c d : Nat) : Nat :=
  if t < 20 then (b &&& c) ||| (n32 b &&& d)
  else if t < 40 then b ^^^ c ^^^ d
  else if t < 60 then (b &&& c) ||| (b &&& d) ||| (c &&& d)
  else b ^^^ c ^^^ d

/-- SHA-1 round constants. -/
def sha1K (t : Nat) : Nat :=
  if t < 20 then 1518500249
  else if t < 40 then 1859775393
  else if t < 60 then 2400959708
  else 3395469782

/-- One SHA-1 round, fed the round index and schedule word. -/
def sha1Step (st : Sha1St) (tw : Nat × Nat) : Sha1St :=
  ⟨w32 (rotl 5 st.a + sha1F tw.1 st.b st.c st.d + st.e + sha1K tw.1 + tw.2),
   st.a, rotl 30 st.b, st.c, st.d⟩

/-- Message-schedule extension; acc holds the words so far, newest first. -/
def extendWords : Nat → List Nat → List Nat
  | 0, acc => acc
  | n + 1, acc =>
    extendWords n
      (rotl 1 (acc.getD 2 0 ^^^ acc.getD 7 0 ^^^ acc.getD 13 0 ^^^ acc.getD 15 0) :: acc)

/-- Big-endian 32-bit words from bytes. -/
def bytesToWords : List Nat → List Nat
  | b0 :: b1 :: b2 :: b3 :: rest =>
    (b0 * 16777216 + b1 * 65536 + b2 * 256 + b3) :: bytesToWords rest
  | _ => []

/-- The 80 schedule words of one 64-byte block. -/
def blockWords (block : List Nat) : List Nat :=
  (extendWords 64 (bytesToWords block).reverse).reverse

/-- SHA-1 compression of one block. -/
def sha1Block (h : Sha1St) (block : List Nat) : Sha1St :=
  let st := ((List.range 80).zip (blockWords block)).foldl sha1Step h
  ⟨w32 (h.a + st.a), w32 (h.b + st.b), w32 (h.c + st.c), w32 (h.d + st.d), w32 (h.e + st.e)⟩

/-- 64-byte blocks of the padded message. -/
def toBlocks (l : List Nat) : List (List Nat) :=
  match l with
  | [] => []
  | x :: rest => (x :: rest).take 64 :: toBlocks (rest.drop 63)
termination_by l.length
decreasing_by simp [List.length_drop]; omega

/-- SHA-1 padding: 0x80, zeros to 56 mod 64, 8-byte big-endian bit length. -/
def padMessage (m : List Nat) : List Nat :=
  m ++ 128 :: List.replicate ((120 - (m.length + 1) % 64) % 64) 0 ++
    [8 * m.length / 2 ^ 56 % 256, 8 * m.length / 2 ^ 48 % 256,
     8 * m.length / 2 ^ 40 % 256, 8 * m.length / 2 ^ 32 % 256,
     8 * m.length / 2 ^ 24 % 256, 8 * m.length / 2 ^ 16 % 256,
     8 * m.length / 2 ^ 8 % 256, 8 * m.length % 256]

/-- SHA-1 initial state. -/
def sha1Init : Sha1St := ⟨1732584193, 4023233417, 2562383102, 271733878, 3285377520⟩

/-- Big-endian bytes of a 32-bit word. -/
def wordBytesBE (w : Nat) : List Nat :=
  [w / 16777216 % 256, w / 65536 % 256, w / 256 % 256, w % 256]

/-- The 20 digest bytes of a byte message. -/
def sha1Digest (m : List Nat) : List Nat :=
  let f := (toBlocks (padMessage m)).foldl sha1Block sha1Init
  wordBytesBE f.a ++ wordBytesBE f.b ++ wordBytesBE f.c ++ wordBytesBE f.d ++ wordBytesBE f.e

/-- Lowercase hex digit. -/
def hexDigit (n : Nat) : Char := if n < 10 then Char.ofNat (48 + n) else Char.ofNat (87 + n)

/-- Two lowercase hex digits of a byte. -/
def byteHex (b : Nat) : List Char := [hexDigit (b / 16), hexDigit (b % 16)]

/-- UTF-8 encoding of one unicode scalar (hash.update uses utf8). -/
def utf8Char (c : Char) : List Nat :=
  if c.toNat < 128 then [c.toNat]
  else if c.toNat < 2048 then [192 + c.toNat / 64, 128 + c.toNat % 64]
  else if c.toNat < 65536 then
    [224 + c.toNat / 4096, 128 + c.toNat / 64 % 64, 128 + c.toNat % 64]
  else
    [240 + c.toNat / 262144, 128 + c.toNat / 4096 % 64, 128 + c.toNat / 64 % 64,
     128 + c.toNat % 64]

/-- UTF-8 bytes of a string. -/
def utf8Bytes (s : List Char) : List Nat := s.flatMap utf8Char

/-- Hex-encoded SHA-1 of a string: crypto.createHash sha1, update, digest hex. -/
def sha1hex (s : List Char) : List Char := (sha1Digest (utf8Bytes s)).flatMap byteHex

/-- getHashedRemotesFromConfig of the source. -/
def getHashedRemotesFromConfig (text : List Char) (b : Bool) : List (List Char) :=
  (getRemotes text b).map sha1hex

/-- getRemotes as actually executed against the shared stateful RemoteMatcher
object: the result list together with the regex object's lastIndex after the
call. -/
def getRemotesS (text : List Char) (b : Bool) (lastIndex : Nat) : List (List Char) × Nat :=
  (remotesOfValues (scanFromState text lastIndex).1 b, (scanFromState text lastIndex).2)

/-- getHashedRemotesFromConfig against the shared stateful RemoteMatcher. -/
def getHashedRemotesFromConfigS (text : List Char) (b : Bool) (lastIndex : Nat) :
    List (List Char) × Nat :=
  ((getRemotesS text b lastIndex).1.map sha1hex, (getRemotesS text b lastIndex).2)

/-- Modelled from the spec: the file-access collaborator (section 6) offers an
existence check and a text read that fails distinctly on missing or binary
content; both are fallible. -/
structure FileService where
  resolveFile : List Char → Except Unit Unit
  resolveContent : List Char → Except Unit (List Char)

/-- The .git/config location beneath a workspace root, as built by the
source: the root path unless it is exactly "/", then "/.git/config". -/
def gitConfigPath (rootPath : List Char) : List Char :=
  (if rootPath = ['/'] then [] else rootPath) ++ ['/', '.', 'g', 'i', 't', '/', 'c', 'o', 'n', 'f', 'i', 'g']

/-- Modelled from the spec: getHashedRemotesFromUri (section 4.5) — resolve
the configuration file, read it as text, hash its remotes; every failure of
either file operation collapses to the empty list and is never surfaced. -/
def getHashedRemotesFromUri (fs : FileService) (rootPath : List Char) (b : Bool) :
    List (List Char) :=
  match fs.resolveFile (gitConfigPath rootPath) with
  | Except.error _ => []
  | Except.ok _ =>
    match fs.resolveContent (gitConfigPath rootPath) with
    | Except.error _ => []
    | Except.ok content => getHashedRemotesFromConfig content b

/-! ## Helper lemmas -/

theorem scanAux_false_of_noTerm :
    ∀ (n : Nat) (s : List Char), (∀ c ∈ s, isLineTerm c = false) → scanAux n false s = [] := by
  intro n
  induction n with
  | zero => intro s _; rfl
  | succ m ih =>
    intro s h
    cases s with
    | nil => rfl
    | cons c rest =>
      have hc : isLineTerm c = false := h c (by simp)
      show scanAux m (isLineTerm c) rest = []
      rw [hc]
      exact ih rest (fun d hd => h d (by simp [hd]))

theorem mem_insertSet {l : List (List Char)} {a x : List Char}
    (h : x ∈ insertSet l a) : x ∈ l ∨ x = a := by
  unfold insertSet at h
  split at h
  · exact Or.inl h
  · rcases List.mem_append.mp h with h1 | h1
    · exact Or.inl h1
    · exact Or.inr (List.mem_singleton.mp h1)

theorem nodup_insertSet {l : List (List Char)} {a : List Char}
    (h : l.Nodup) : (insertSet l a).Nodup := by
  unfold insertSet
  split
  · exact h
  · next hna =>
    refine List.Nodup.append h (List.nodup_singleton a) ?_
    intro x hx hx1
    rw [List.mem_singleton.mp hx1] at hx
    exact hna hx

theorem nodup_foldl_insertSet :
    ∀ (l : List (List Char)) (acc : List (List Char)),
      acc.Nodup → (l.foldl insertSet acc).Nodup := by
  intro l
  induction l with
  | nil => intro acc h; exact h
  | cons a t ih => intro acc h; exact ih (insertSet acc a) (nodup_insertSet h)

theorem mem_foldl_insertSet :
    ∀ (l : List (List Char)) (acc : List (List Char)) (x : List Char),
      x ∈ l.foldl insertSet acc → x ∈ acc ∨ x ∈ l := by
  intro l
  induction l with
  | nil => intro acc x h; exact Or.inl h
  | cons a t ih =>
    intro acc x h
    rcases ih (insertSet acc a) x h with h1 | h1
    · rcases mem_insertSet h1 with h2 | h2
      · exact Or.inl h2
      · exact Or.inr (by simp [h2])
    · exact Or.inr (by simp [h1])

theorem length_insertSet (l : List (List Char)) (a : List Char) :
    (insertSet l a).length ≤ l.length + 1 := by
  unfold insertSet
  split
  · omega
  · simp

theorem length_foldl_insertSet :
    ∀ (l : List (List Char)) (acc : List (List Char)),
      (l.foldl insertSet acc).length ≤ acc.length + l.length := by
  intro l
  induction l with
  | nil => intro acc; simp
  | cons a t ih =>
    intro acc
    have h1 := ih (insertSet acc a)
    have h2 := length_insertSet acc a
    simp only [List.foldl_cons, List.length_cons]
    omega

theorem sldMatchAt_ne_nil {s d : List Char} (h : sldMatchAt s = some d) : d ≠ [] := by
  unfold sldMatchAt at h
  split at h
  · split at h
    · cases h; simp
    · split at h
      · cases h; simp
      · cases h
    · cases h
  · cases h

theorem stripLowLevelDomains_ne_nil :
    ∀ {s d : List Char}, stripLowLevelDomains s = some d → d ≠ [] := by
  intro s
  induction s with
  | nil => intro d h; cases h
  | cons c rest ih =>
    intro d h
    unfold stripLowLevelDomains at h
    split at h
    · next m hm => cases h; exact sldMatchAt_ne_nil hm
    · exact ih h

theorem normalizeRemote_ne_nil {host path : List Char} {b : Bool} {r : List Char}
    (h : normalizeRemote host path b = some r) : r ≠ [] := by
  unfold normalizeRemote at h
  split at h
  · cases h
  · next hc =>
    have hh : host ≠ [] := by
      intro he
      apply hc
      simp [he]
    split at h
    · cases h
      intro he
      exact hh (List.append_eq_nil.mp he).1
    · cases h
      intro he
      exact hh (List.append_eq_nil.mp he).1

theorem extractRemoteUri_ne_nil {v : List Char} {b : Bool} {r : List Char}
    (h : extractRemoteUri v b = some r) : r ≠ [] := by
  unfold extractRemoteUri at h
  split at h
  · exact normalizeRemote_ne_nil h
  · cases h

theorem extractRemote_ne_nil {v : List Char} {b : Bool} {r : List Char}
    (h : extractRemote v b = some r) : r ≠ [] := by
  unfold extractRemote at h
  split at h
  · exact extractRemoteUri_ne_nil h
  · split at h
    · exact normalizeRemote_ne_nil h
    · exact extractRemoteUri_ne_nil h

theorem extractDomain_ne_nil {v : List Char} {d : List Char}
    (h : extractDomain v = some d) : d ≠ [] := by
  unfold extractDomain at h
  split at h
  · split at h
    · exact stripLowLevelDomains_ne_nil h
    · cases h
  · split at h
    · exact stripLowLevelDomains_ne_nil h
    · cases h

theorem mem_domainValues_ne_nil {vals : List (List Char)} {x : List Char}
    (h : x ∈ domainValues vals) : x ≠ [] := by
  unfold domainValues at h
  rcases List.mem_filterMap.mp h with ⟨v, -, hv⟩
  rcases hd : extractDomain v with _ | d
  · rw [hd] at hv; cases hv
  · rw [hd] at hv
    by_cases he : d.isEmpty = true
    · simp only [he] at hv
      cases hv
    · simp only [he] at hv
      simp only [if_neg, Bool.false_eq_true, reduceIte] at hv
      cases hv
      intro hx
      apply he
      simp [hx]

theorem length_flatMap_byteHex :
    ∀ (l : List Nat), (l.flatMap byteHex).length = 2 * l.length := by
  intro l
  induction l with
  | nil => rfl
  | cons b t ih =>
    simp only [List.flatMap_cons, List.length_append, List.length_cons, ih, byteHex]
    simp
    omega

theorem sha1Digest_length (m : List Nat) : (sha1Digest m).length = 20 := by
  unfold sha1Digest wordBytesBE
  simp

theorem sha1hex_length (s : List Char) : (sha1hex s).length = 40 := by
  unfold sha1hex
  rw [length_flatMap_byteHex, sha1Digest_length]

theorem remotesOfValues_const {b : Bool} {r : List Char} :
    ∀ (l : List (List Char)), (∀ v ∈ l, extractRemote v b = some r) →
      remotesOfValues l b = List.replicate l.length r := by
  intro l
  induction l with
  | nil => intro _; rfl
  | cons v t ih =>
    intro h
    have hv : extractRemote v b = some r := h v (by simp)
    have hne : r.isEmpty = false := by
      have := extractRemote_ne_nil hv
      cases r with
      | nil => exact absurd rfl this
      | cons _ _ => rfl
    unfold remotesOfValues
    simp only [List.filterMap_cons, hv, hne, Bool.false_eq_true, reduceIte]
    rw [List.length_cons, List.replicate_succ]
    congr 1
    exact ih (fun w hw => h w (by simp [hw]))

theorem domainValues_const {d : List Char} :
    ∀ (l : List (List Char)), (∀ v ∈ l, extractDomain v = some d) →
      domainValues l = List.replicate l.length d := by
  intro l
  induction l with
  | nil => intro _; rfl
  | cons v t ih =>
    intro h
    have hv : extractDomain v = some d := h v (by simp)
    have hne : d.isEmpty = false := by
      have := extractDomain_ne_nil hv
      cases d with
      | nil => exact absurd rfl this
      | cons _ _ => rfl
    unfold domainValues
    simp only [List.filterMap_cons, hv, hne, Bool.false_eq_true, reduceIte]
    rw [List.length_cons, List.replicate_succ]
    congr 1
    exact ih (fun w hw => h w (by simp [hw]))

theorem foldl_insertSet_self (d : List Char) :
    ∀ (n : Nat), List.foldl insertSet [d] (List.replicate n d) = [d] := by
  intro n
  induction n with
  | zero => rfl
  | succ m ih =>
    rw [List.replicate_succ, List.foldl_cons]
    have h1 : insertSet [d] d = [d] := by simp [insertSet]
    rw [h1, ih]

theorem foldl_insertSet_replicate (d : List Char) (n : Nat) :
    List.foldl insertSet [] (List.replicate (n + 1) d) = [d] := by
  rw [List.replicate_succ, List.foldl_cons]
  have h1 : insertSet [] d = [d] := by simp [insertSet]
  rw [h1]
  exact foldl_insertSet_self d n

theorem scanFromState_snd (text : List Char) (lastIndex : Nat) :
    (scanFromState text lastIndex).2 = 0 := by
  unfold scanFromState
  split <;> rfl

theorem scanFromState_zero (text : List Char) :
    scanFromState text 0 = (scanRemoteValues text, 0) := by
  unfold scanFromState scanRemoteValues
  rw [if_pos (Nat.zero_le _)]
  simp

/-! ## Claims -/

/-- C1 counterexample: on the text "url = https://internal.example.com/repo"
with an empty whitelist, getDomainsOfRemotes does NOT return the claimed
full-host redaction ["aaaaaaaaaaaaaaa.aaaaaaa.aaa"]. -/
theorem C1_counterexample :
    getDomainsOfRemotes ("url = https://internal.example.com/repo").data [] ≠
      [("aaaaaaaaaaaaaaa.aaaaaaa.aaa").data] := by
  decide

/-- C1 (amended): getDomainsOfRemotes("url = https://internal.example.com/repo", [])
returns ["aaaaaaa.aaa"] — the host is first reduced by stripLowLevelDomains to
its last two dot-separated labels "example.com", and only that second-level
domain is redacted (dots preserved, every other character replaced by 'a'). -/
theorem C1_domain_redaction :
    getDomainsOfRemotes ("url = https://internal.example.com/repo").data [] =
      [("aaaaaaa.aaa").data] := by
  decide

/-- C2: getRemotes on "url = git@github.com:org/repo.git" returns
["github.com/org/repo"] with the strip flag set (trailing ".git" removed)
and ["github.com/org/repo.git"] with the flag unset. -/
theorem C2_strip_git_suffix :
    getRemotes ("url = git@github.com:org/repo.git").data true =
      [("github.com/org/repo").data] ∧
    getRemotes ("url = git@github.com:org/repo.git").data false =
      [("github.com/org/repo.git").data] := by
  decide

/-- C3 counterexample: the RemoteMatcher key is NOT case-insensitive — the
line "URL = git@github.com:org/repo.git" yields no remotes while the same
line with a lowercase key yields one, so there is a value v for which
"URL = v" and "url = v" give different extraction results. -/
theorem C3_counterexample :
    getRemotes ("URL = git@github.com:org/repo.git").data false = [] ∧
    getRemotes ("url = git@github.com:org/repo.git").data false =
      [("github.com/org/repo.git").data] ∧
    getRemotes ("URL = git@github.com:org/repo.git").data false ≠
      getRemotes ("url = git@github.com:org/repo.git").data false := by
  decide

/-- C3 (amended): the declaration key is matched case-sensitively, lowercase
only: for every terminator-free value v, a line "URL = v" contributes
nothing — all three extraction functions return the empty sequence on it. -/
theorem C3_key_case_sensitive :
    ∀ (v : List Char) (b : Bool) (wl : List (List Char)),
      (∀ c ∈ v, isLineTerm c = false) →
      getRemotes (("URL = ").data ++ v) b = [] ∧
      getHashedRemotesFromConfig (("URL = ").data ++ v) b = [] ∧
      getDomainsOfRemotes (("URL = ").data ++ v) wl = [] := by
  intro v b wl hv
  have hdata : ("URL = ").data ++ v = 'U' :: 'R' :: 'L' :: ' ' :: '=' :: ' ' :: v := rfl
  have hstep : scanRemoteValues ('U' :: 'R' :: 'L' :: ' ' :: '=' :: ' ' :: v) =
      scanAux v.length false v := rfl
  have hscan : scanRemoteValues ('U' :: 'R' :: 'L' :: ' ' :: '=' :: ' ' :: v) = [] := by
    rw [hstep]
    exact scanAux_false_of_noTerm v.length v hv
  refine ⟨?_, ?_, ?_⟩ <;>
    simp [getRemotes, getHashedRemotesFromConfig, getDomainsOfRemotes, remotesOfValues,
      remoteValueDomains, domainValues, hdata, hscan]

/-- C3 witness: the amended statement at the concrete value of the
counterexample. -/
theorem C3_key_case_sensitive_witness :
    getRemotes (("URL = ").data ++ ("git@github.com:org/repo.git").data) false = [] ∧
    getHashedRemotesFromConfig (("URL = ").data ++ ("git@github.com:org/repo.git").data) false = [] ∧
    getDomainsOfRemotes (("URL = ").data ++ ("git@github.com:org/repo.git").data) [] = [] :=
  C3_key_case_sensitive ("git@github.com:org/repo.git").data false [] (by decide)

/-- C4: when the RemoteMatcher scan finds no url-declaration in the
configuration text, getRemotes, getHashedRemotesFromConfig and
getDomainsOfRemotes all return the empty sequence. -/
theorem C4_no_declarations_empty :
    ∀ (text : List Char) (b : Bool) (wl : List (List Char)),
      scanRemoteValues text = [] →
      getRemotes text b = [] ∧
      getHashedRemotesFromConfig text b = [] ∧
      getDomainsOfRemotes text wl = [] := by
  intro text b wl h
  refine ⟨?_, ?_, ?_⟩ <;>
    simp [getRemotes, getHashedRemotesFromConfig, getDomainsOfRemotes, remotesOfValues,
      remoteValueDomains, domainValues, h]

/-- C4 witness: a concrete text with no declaration. -/
theorem C4_no_declarations_empty_witness :
    getRemotes ("hello world").data true = [] ∧
    getHashedRemotesFromConfig ("hello world").data true = [] ∧
    getDomainsOfRemotes ("hello world").data [] = [] :=
  C4_no_declarations_empty ("hello world").data true [] (by decide)

/-- C10: in normalizeRemote the emptiness check on host and path precedes the
.git suffix stripping, so with the strip flag set a path of exactly ".git" is
not skipped: the stripped path is empty and the result is the host followed
by a lone separator slash. -/
theorem C10_lone_separator :
    getRemotes ("url = git@github.com:.git").data true = [("github.com/").data] ∧
    normalizeRemote ("github.com").data (".git").data true = some ("github.com/").data := by
  decide

/-- C5: extraction is total (all three functions are plain Lean functions, so
they always return) and declarations whose value matches neither grammar are
silently skipped: each output has at most one entry per scanned declaration,
and the malformed declaration "url = ::::" is scanned as a declaration yet
contributes no entry to any of the three outputs. -/
theorem C5_malformed_silently_skipped :
    (∀ (text : List Char) (b : Bool) (wl : List (List Char)),
      (getRemotes text b).length ≤ (scanRemoteValues text).length ∧
      (getHashedRemotesFromConfig text b).length ≤ (scanRemoteValues text).length ∧
      (getDomainsOfRemotes text wl).length ≤ (scanRemoteValues text).length) ∧
    scanRemoteValues ("url = ::::").data = [("::::").data] ∧
    (∀ b : Bool, getRemotes ("url = ::::").data b = [] ∧
      getHashedRemotesFromConfig ("url = ::::").data b = []) ∧
    (∀ wl : List (List Char), getDomainsOfRemotes ("url = ::::").data wl = []) := by
  refine ⟨?_, by decide, ?_, ?_⟩
  · intro text b wl
    have h1 : (getRemotes text b).length ≤ (scanRemoteValues text).length := by
      have := List.length_filterMap_le
        (fun v => match extractRemote v b with
          | some r => if r.isEmpty then none else some r
          | none => none) (scanRemoteValues text)
      simpa [getRemotes, remotesOfValues] using this
    refine ⟨h1, by simpa [getHashedRemotesFromConfig] using h1, ?_⟩
    have h2 : (domainValues (scanRemoteValues text)).length ≤ (scanRemoteValues text).length :=
      List.length_filterMap_le _ _
    have h3 := length_foldl_insertSet (domainValues (scanRemoteValues text)) []
    simp only [List.length_nil, Nat.zero_add] at h3
    have h4 : (getDomainsOfRemotes text wl).length =
        (remoteValueDomains (scanRemoteValues text)).length := by
      simp [getDomainsOfRemotes]
    rw [h4]
    exact le_trans h3 h2
  · intro b
    have hb : remotesOfValues (scanRemoteValues ("url = ::::").data) b = [] := by
      cases b <;> decide
    exact ⟨hb, by simp [getHashedRemotesFromConfig, getRemotes, hb]⟩
  · intro wl
    have hd : remoteValueDomains (scanRemoteValues ("url = ::::").data) = [] := by decide
    simp [getDomainsOfRemotes, hd]

/-- C6: when every scanned declaration of a text resolves to the same remote r
and the same domain d, and there are at least two declarations,
getDomainsOfRemotes reports the domain exactly once while getRemotes and
getHashedRemotesFromConfig keep one (duplicate) entry per declaration. -/
theorem C6_duplicate_declarations :
    ∀ (text : List Char) (b : Bool) (wl : List (List Char)) (r d : List Char),
      (∀ v ∈ scanRemoteValues text, extractRemote v b = some r ∧ extractDomain v = some d) →
      2 ≤ (scanRemoteValues text).length →
      getDomainsOfRemotes text wl = [if d ∈ wl then d else redactDomain d] ∧
      getRemotes text b = List.replicate (scanRemoteValues text).length r ∧
      getHashedRemotesFromConfig text b =
        List.replicate (scanRemoteValues text).length (sha1hex r) := by
  intro text b wl r d h hlen
  have hr : ∀ v ∈ scanRemoteValues text, extractRemote v b = some r := fun v hv => (h v hv).1
  have hd : ∀ v ∈ scanRemoteValues text, extractDomain v = some d := fun v hv => (h v hv).2
  have hrem : getRemotes text b = List.replicate (scanRemoteValues text).length r :=
    remotesOfValues_const _ hr
  refine ⟨?_, hrem, ?_⟩
  · have hdv : domainValues (scanRemoteValues text) =
        List.replicate (scanRemoteValues text).length d := domainValues_const _ hd
    obtain ⟨n, hn⟩ : ∃ n, (scanRemoteValues text).length = n + 1 :=
      ⟨(scanRemoteValues text).length - 1, by omega⟩
    unfold getDomainsOfRemotes remoteValueDomains
    rw [hdv, hn, foldl_insertSet_replicate]
    simp
  · unfold getHashedRemotesFromConfig
    rw [hrem, List.map_replicate]

/-- C6 witness: a text with the same declaration twice. -/
theorem C6_duplicate_declarations_witness :
    getDomainsOfRemotes
      ("url = git@github.com:org/repo.git\nurl = git@github.com:org/repo.git").data
      [("github.com").data] = [("github.com").data] ∧
    getRemotes ("url = git@github.com:org/repo.git\nurl = git@github.com:org/repo.git").data
      false = List.replicate 2 ("github.com/org/repo.git").data ∧
    getHashedRemotesFromConfig
      ("url = git@github.com:org/repo.git\nurl = git@github.com:org/repo.git").data false =
      List.replicate 2 (sha1hex ("github.com/org/repo.git").data) := by
  have h := C6_duplicate_declarations
    ("url = git@github.com:org/repo.git\nurl = git@github.com:org/repo.git").data false
    [("github.com").data] ("github.com/org/repo.git").data ("github.com").data
    (by decide) (by decide)
  have hlen : (scanRemoteValues
      ("url = git@github.com:org/repo.git\nurl = git@github.com:org/repo.git").data).length = 2 := by
    decide
  rw [hlen] at h
  rcases h with ⟨h1, h2, h3⟩
  refine ⟨?_, h2, h3⟩
  rw [h1, if_pos (by decide : ("github.com").data ∈ [("github.com").data])]

/-- C7 counterexample: two distinct domains that redact to the same mask make
the output of getDomainsOfRemotes contain a duplicate entry, so the claimed
duplicate-freeness of the returned list is false. -/
theorem C7_counterexample :
    getDomainsOfRemotes ("url = x@ab.cd:p\nurl = x@xy.zw:p").data [] =
      [("aa.aa").data, ("aa.aa").data] ∧
    ¬ (getDomainsOfRemotes ("url = x@ab.cd:p\nurl = x@xy.zw:p").data []).Nodup := by
  decide

/-- C7 (amended): deduplication happens on the raw domains before whitelist
redaction — the raw domain set is duplicate-free, but the returned redacted
list may repeat entries, and getHashedRemotesFromConfig is the plain
per-declaration hash list without any deduplication; no entry of either
output is null or empty (hashes are 40 hex characters long). -/
theorem C7_dedup_before_redaction :
    ∀ (text : List Char) (wl : List (List Char)) (b : Bool),
      (remoteValueDomains (scanRemoteValues text)).Nodup ∧
      (∀ x ∈ getDomainsOfRemotes text wl, x ≠ []) ∧
      (∀ h ∈ getHashedRemotesFromConfig text b, h ≠ [] ∧ h.length = 40) ∧
      getHashedRemotesFromConfig text b = (getRemotes text b).map sha1hex := by
  intro text wl b
  refine ⟨nodup_foldl_insertSet _ [] List.nodup_nil, ?_, ?_, rfl⟩
  · intro x hx
    unfold getDomainsOfRemotes at hx
    rcases List.mem_map.mp hx with ⟨k, hk, hxk⟩
    have hkne : k ≠ [] := by
      rcases mem_foldl_insertSet _ _ _ hk with h1 | h1
      · simp at h1
      · exact mem_domainValues_ne_nil h1
    rw [← hxk]
    split
    · exact hkne
    · simp only [redactDomain, ne_eq, List.map_eq_nil_iff]
      exact hkne
  · intro hsh hmem
    unfold getHashedRemotesFromConfig at hmem
    rcases List.mem_map.mp hmem with ⟨rr, -, hr⟩
    rw [← hr]
    refine ⟨?_, sha1hex_length rr⟩
    intro he
    have := sha1hex_length rr
    rw [he] at this
    simp at this

/-- C7 witness: concrete members of both output lists. -/
theorem C7_dedup_before_redaction_witness :
    ("aa.aa").data ≠ ([] : List Char) ∧
    (sha1hex ("ab.cd/p").data ≠ [] ∧ (sha1hex ("ab.cd/p").data).length = 40) := by
  constructor
  · exact (C7_dedup_before_redaction ("url = x@ab.cd:p").data [] true).2.1
      ("aa.aa").data (by decide)
  · refine (C7_dedup_before_redaction ("url = x@ab.cd:p").data [] true).2.2.1
      (sha1hex ("ab.cd/p").data) ?_
    have hg : getRemotes ("url = x@ab.cd:p").data true = [("ab.cd/p").data] := by decide
    show sha1hex ("ab.cd/p").data ∈ (getRemotes ("url = x@ab.cd:p").data true).map sha1hex
    rw [hg]
    simp

/-- C8: getHashedRemotesFromUri on a root whose .git/config cannot be
resolved or whose content read fails (missing, unreadable or binary file)
returns the empty sequence; by totality of the function no failure is ever
propagated to the caller. -/
theorem C8_missing_config_empty :
    ∀ (fs : FileService) (rootPath : List Char) (b : Bool),
      (fs.resolveFile (gitConfigPath rootPath) = Except.error () ∨
       fs.resolveContent (gitConfigPath rootPath) = Except.error ()) →
      getHashedRemotesFromUri fs rootPath b = [] := by
  intro fs rootPath b h
  unfold getHashedRemotesFromUri
  rcases h with h | h
  · rw [h]
  · cases hres : fs.resolveFile (gitConfigPath rootPath) with
    | error e => rfl
    | ok u => rw [h]

/-- C8 witness: a file service that fails every operation. -/
theorem C8_missing_config_empty_witness :
    getHashedRemotesFromUri
      ⟨fun _ => Except.error (), fun _ => Except.error ()⟩ ([ '/' ] : List Char) true = [] :=
  C8_missing_config_empty ⟨fun _ => Except.error (), fun _ => Except.error ()⟩
    [ '/' ] true (Or.inl rfl)

/-- C9: getHashedRemotesFromConfig is deterministic.  Modelled against the
shared stateful RemoteMatcher object: a call from a fresh regex state leaves
the state back at 0 (the exec loop always runs to a failed exec, which
resets lastIndex), so an immediately repeated call on the same input returns
the identical list; the stateful call agrees with the pure function, and
every output entry is a 40-character hex digest. -/
theorem C9_deterministic :
    ∀ (text : List Char) (b : Bool),
      getHashedRemotesFromConfigS text b ((getHashedRemotesFromConfigS text b 0).2) =
        getHashedRemotesFromConfigS text b 0 ∧
      (getHashedRemotesFromConfigS text b 0).1 = getHashedRemotesFromConfig text b ∧
      (∀ h ∈ getHashedRemotesFromConfig text b, h.length = 40) := by
  intro text b
  have hsnd : (getHashedRemotesFromConfigS text b 0).2 = 0 := by
    show (getRemotesS text b 0).2 = 0
    show (scanFromState text 0).2 = 0
    exact scanFromState_snd text 0
  refine ⟨by rw [hsnd], ?_, ?_⟩
  · show (getRemotesS text b 0).1.map sha1hex = getHashedRemotesFromConfig text b
    show (remotesOfValues (scanFromState text 0).1 b).map sha1hex =
      getHashedRemotesFromConfig text b
    rw [scanFromState_zero]
    rfl
  · intro h hm
    unfold getHashedRemotesFromConfig at hm
    rcases List.mem_map.mp hm with ⟨rr, -, hr⟩
    rw [← hr]
    exact sha1hex_length rr

/-- C9 witness: the determinism statement instantiated, and the 40-character
length of a concrete output entry. -/
theorem C9_deterministic_witness :
    (sha1hex ("ab.cd/x").data).length = 40 := by
  refine (C9_deterministic ("url = a@ab.cd:x").data true).2.2 (sha1hex ("ab.cd/x").data) ?_
  have hg : getRemotes ("url = a@ab.cd:x").data true = [("ab.cd/x").data] := by decide
  show sha1hex ("ab.cd/x").data ∈ (getRemotes ("url = a@ab.cd:x").data true).map sha1hex
  rw [hg]
  simp
